import Mathlib

/-!
# Tracing interceptor for connect RPC calls: configuration and span lifecycle

A shallow embedding of `connect.go` and `option.go`.

* Go `error` values are modelled by the inductive `GoError`; a possibly-nil
  `error` is an `Option GoError`.
* A Go map is modelled by `GoMap`: the nil map, or a finite map with distinct
  keys.  Reading a nil map gives the zero value, its length is `0`.
* A span is modelled by the record of the calls made on it: the start options
  it was created with, the `SetTag` calls and the `Finish` calls, in order.
* Functions that mutate their `*config` or `*Span` argument become functions
  returning the new value; a function that can panic returns an `Option`.
* A `float64` is modelled by `Float64`, what the comparison operators see of it.
* Go strings are compared and split as lists of characters; the separator `/`
  is a single byte, so splitting by character and by byte agree.
-/

namespace DDConnect

/-! ## External collaborators: status codes, errors -/

/-- The type `connect.Code` (a `uint32`). -/
abbrev Code := Nat

def CodeCanceled : Code := 1
def CodeUnknown : Code := 2
def CodeInvalidArgument : Code := 3
def CodeDeadlineExceeded : Code := 4
def CodeNotFound : Code := 5
def CodeAlreadyExists : Code := 6
def CodePermissionDenied : Code := 7
def CodeResourceExhausted : Code := 8
def CodeFailedPrecondition : Code := 9
def CodeAborted : Code := 10
def CodeOutOfRange : Code := 11
def CodeUnimplemented : Code := 12
def CodeInternal : Code := 13
def CodeUnavailable : Code := 14
def CodeDataLoss : Code := 15
def CodeUnauthenticated : Code := 16

/-- The method `connect.Code.String`: the snake-case name of a known code,
`code_N` otherwise. -/
def codeString (c : Code) : String :=
  if c = 1 then "canceled"
  else if c = 2 then "unknown"
  else if c = 3 then "invalid_argument"
  else if c = 4 then "deadline_exceeded"
  else if c = 5 then "not_found"
  else if c = 6 then "already_exists"
  else if c = 7 then "permission_denied"
  else if c = 8 then "resource_exhausted"
  else if c = 9 then "failed_precondition"
  else if c = 10 then "aborted"
  else if c = 11 then "out_of_range"
  else if c = 12 then "unimplemented"
  else if c = 13 then "internal"
  else if c = 14 then "unavailable"
  else if c = 15 then "data_loss"
  else if c = 16 then "unauthenticated"
  else "code_" ++ toString c

/-- Non-nil Go `error` values, by the way they are built.

* `eof` is the sentinel `io.EOF`, `canceled` the sentinel `context.Canceled`;
* `new msg` is any other leaf error (`errors.New(msg)`), which has no `Unwrap`;
* `wrap msg inner` is `fmt.Errorf(msg + ": %w", inner)`, whose `Unwrap` is `inner`;
* `connectError code underlying` is `connect.NewError(code, underlying)` with a
  non-nil underlying error, whose `Unwrap` is `underlying`;
* `connectErrorNil code` is `connect.NewError(code, nil)`, whose `Unwrap` is nil;
* `join a b` is `errors.Join(a, b)`, whose `Unwrap` is the list `[a, b]`. -/
inductive GoError where
  | eof : GoError
  | canceled : GoError
  | new (msg : String) : GoError
  | wrap (msg : String) (inner : GoError) : GoError
  | connectError (code : Code) (underlying : GoError) : GoError
  | connectErrorNil (code : Code) : GoError
  | join (a b : GoError) : GoError
  deriving DecidableEq

/-- The loop of `errors.Is` on a non-nil error: compare with the target, else
follow `Unwrap` (depth first through a joined error). -/
def errorsIsChain (target : GoError) : GoError → Bool
  | GoError.wrap msg inner =>
      decide (GoError.wrap msg inner = target) || errorsIsChain target inner
  | GoError.connectError code underlying =>
      decide (GoError.connectError code underlying = target) || errorsIsChain target underlying
  | GoError.join a b =>
      decide (GoError.join a b = target) || errorsIsChain target a || errorsIsChain target b
  | e => decide (e = target)

/-- The function `errors.Is(err, target)` for a non-nil target: a nil `err`
matches nothing. -/
def errorsIs (err : Option GoError) (target : GoError) : Bool :=
  match err with
  | none => false
  | some e => errorsIsChain target e

/-- The function `errors.As(err, &connectErr)` for a target of type
`*connect.Error`: the code of the first connect error met along the chain. -/
def asError : GoError → Option Code
  | GoError.connectError code _ => some code
  | GoError.connectErrorNil code => some code
  | GoError.wrap _ inner => asError inner
  | GoError.join a b =>
      match asError a with
      | some c => some c
      | none => asError b
  | _ => none

/-- The function `connect.CodeOf`: the code of the connect error in the chain,
`CodeUnknown` when there is none. -/
def CodeOf (err : GoError) : Code :=
  match asError err with
  | some c => c
  | none => CodeUnknown

/-! ## External collaborators: tracer values -/

/-- A value of type `interface{}` used as a tag value. -/
inductive Value where
  | str (s : String) : Value
  | int (i : Int) : Value
  | bool (b : Bool) : Value
  deriving DecidableEq

/-- A propagated span context, as returned by `tracer.Extract`. -/
structure SpanContext where
  traceID : Nat
  spanID : Nat
  deriving DecidableEq

/-- A `float64`, by what the comparison operators see of it: not-a-number, an
infinity, the negative zero, or a finite value given by its numerical value.
Every finite `float64` is a rational number, so every `float64` is one of these. -/
inductive Float64 where
  | nan : Float64
  | posInf : Float64
  | negInf : Float64
  | negZero : Float64
  | finite (value : ℚ) : Float64
  deriving DecidableEq

/-- The place of a `float64` on the extended line: `none` for not-a-number, else
a rank (`-1` for minus infinity, `1` for plus infinity, `0` otherwise) and the
numerical value. -/
def Float64.key : Float64 → Option (Int × ℚ)
  | Float64.nan => none
  | Float64.negInf => some (-1, 0)
  | Float64.posInf => some (1, 0)
  | Float64.negZero => some (0, 0)
  | Float64.finite q => some (0, q)

/-- The Go comparison `a <= b` on `float64`: false when either side is
not-a-number, the order of the extended line otherwise. -/
def Float64.le (a b : Float64) : Bool :=
  match a.key, b.key with
  | some x, some y => decide (x.1 < y.1) || (decide (x.1 = y.1) && decide (x.2 ≤ y.2))
  | _, _ => false

/-- The Go comparison `a >= b` on `float64`. -/
def Float64.ge (a b : Float64) : Bool := Float64.le b a

/-- The values of `tracer.StartSpanOption` this package builds. -/
inductive StartSpanOption where
  | Tag (key : String) (value : Value) : StartSpanOption
  | AnalyticsRate (rate : Float64) : StartSpanOption
  | ServiceName (name : String) : StartSpanOption
  | ResourceName (name : String) : StartSpanOption
  | SpanType (name : String) : StartSpanOption
  | ChildOf (sctx : SpanContext) : StartSpanOption
  deriving DecidableEq

/-- The values of `tracer.FinishOption` this package builds. -/
inductive FinishOption where
  | WithError (err : GoError) : FinishOption
  | NoDebugStack : FinishOption
  deriving DecidableEq

/-- A span, as the record of what was done to it: the operation name and start
options of `StartSpanFromContext`, every `SetTag(key, value)` call and every
`Finish(opts...)` call, oldest first. -/
structure Span where
  name : String
  startOpts : List StartSpanOption
  setTags : List (String × Value)
  finishes : List (List FinishOption)
  deriving DecidableEq

/-- The method `span.SetTag(key, value)`. -/
def Span.SetTag (span : Span) (key : String) (value : Value) : Span :=
  { span with setTags := span.setTags ++ [(key, value)] }

/-- The method `span.Finish(opts...)`. -/
def Span.Finish (span : Span) (opts : List FinishOption) : Span :=
  { span with finishes := span.finishes ++ [opts] }

/-- A span is marked failed when some `Finish` call carried a `WithError` option. -/
def Span.markedFailed (span : Span) : Bool :=
  span.finishes.any (fun opts => opts.any (fun o =>
    match o with
    | FinishOption.WithError _ => true
    | FinishOption.NoDebugStack => false))

/-! ## Go maps -/

/-- A Go map value: the nil map, or an allocated map with distinct keys. -/
inductive GoMap (K V : Type) where
  | nil : GoMap K V
  | map (m : AList (fun _ : K => V)) : GoMap K V

namespace GoMap

variable {K V : Type} [DecidableEq K]

/-- The comma-ok lookup `v, ok := m[k]`. -/
def get? (m : GoMap K V) (k : K) : Option V :=
  match m with
  | GoMap.nil => none
  | GoMap.map a => a.lookup k

/-- The index expression `m[k]`: the stored value, the zero value when the key
is absent or the map is nil. -/
def index (m : GoMap K V) (k : K) (zero : V) : V :=
  match m.get? k with
  | some v => v
  | none => zero

/-- The expression `len(m)`. -/
def len (m : GoMap K V) : Nat :=
  match m with
  | GoMap.nil => 0
  | GoMap.map a => a.entries.length

/-- The key/value pairs held by the map. -/
def entries (m : GoMap K V) : List (K × V) :=
  match m with
  | GoMap.nil => []
  | GoMap.map a => a.entries.map (fun e => (e.1, e.2))

/-- The keys held by the map. -/
def keys (m : GoMap K V) : List K :=
  match m with
  | GoMap.nil => []
  | GoMap.map a => a.keys

/-- The assignment `m[k] = v`: `none` when it panics, which it does on the nil
map. -/
def set (m : GoMap K V) (k : K) (v : V) : Option (GoMap K V) :=
  match m with
  | GoMap.nil => none
  | GoMap.map a => some (GoMap.map (a.insert k v))

/-- The map after the loop `for _, k := range ks { m[k] = v }` run on an
allocated map. -/
def insertAll (a : AList (fun _ : K => V)) (ks : List K) (v : V) : AList (fun _ : K => V) :=
  ks.foldl (fun acc k => acc.insert k v) a

end GoMap

/-! ## `option.go`: the configuration -/

/-- The struct `config`. -/
structure config where
  serviceName : Unit → String
  spanName : String
  nonErrorCodes : GoMap Code Bool
  traceStreamCalls : Bool
  traceStreamMessages : Bool
  noDebugStack : Bool
  ignoredMethods : GoMap String Unit
  untracedMethods : GoMap String Unit
  withMetadataTags : Bool
  ignoredMetadata : GoMap String Unit
  withRequestTags : Bool
  spanOpts : List StartSpanOption
  tags : GoMap String Value

/-- The zero value `config{}`. -/
def config.zero : config where
  serviceName := fun _ => ""
  spanName := ""
  nonErrorCodes := GoMap.nil
  traceStreamCalls := false
  traceStreamMessages := false
  noDebugStack := false
  ignoredMethods := GoMap.nil
  untracedMethods := GoMap.nil
  withMetadataTags := false
  ignoredMetadata := GoMap.nil
  withRequestTags := false
  spanOpts := []
  tags := GoMap.nil

/-- The type `Option` (alias `InterceptorOption`): a mutation of the config. -/
abbrev InterceptorOption := config → config

/-- The constant `defaultServerServiceName`. -/
def defaultServerServiceName : String := "connect.server"

/-- The function `defaults(cfg)`. -/
def defaults (cfg : config) : config :=
  { cfg with
    traceStreamCalls := true
    traceStreamMessages := true
    nonErrorCodes := GoMap.map ((∅ : AList (fun _ : Code => Bool)).insert CodeCanceled true)
    ignoredMetadata := GoMap.map
      (GoMap.insertAll ∅
        ["x-datadog-trace-id", "x-datadog-parent-id", "x-datadog-sampling-priority"] ()) }

/-- The function `serverDefaults(cfg)`. -/
def serverDefaults (cfg : config) : config :=
  defaults { cfg with
    serviceName := fun _ => defaultServerServiceName
    spanName := "connect.server.request" }

/-- The option `NoDebugStack()`. -/
def NoDebugStack : InterceptorOption := fun cfg =>
  { cfg with noDebugStack := true }

/-- The option `NonErrorCodes(cs...)`: a fresh map, then `cfg.nonErrorCodes[c] = true`
for each `c` of `cs`. -/
def NonErrorCodes (cs : List Code) : InterceptorOption := fun cfg =>
  { cfg with nonErrorCodes := GoMap.map (GoMap.insertAll ∅ cs true) }

/-- The option `WithIgnoredMethods(ms...)`: the map `ims` is built from `ms`
alone, the returned function stores it. -/
def WithIgnoredMethods (ms : List String) : InterceptorOption :=
  let ims : GoMap String Unit := GoMap.map (GoMap.insertAll ∅ ms ())
  fun cfg => { cfg with ignoredMethods := ims }

/-- The option `WithUntracedMethods(ms...)`. -/
def WithUntracedMethods (ms : List String) : InterceptorOption :=
  let ums : GoMap String Unit := GoMap.map (GoMap.insertAll ∅ ms ())
  fun cfg => { cfg with untracedMethods := ums }

/-- The option `WithCustomTag(key, value)`. -/
def WithCustomTag (key : String) (value : Value) : InterceptorOption := fun cfg =>
  match cfg.tags with
  | GoMap.nil => { cfg with tags := GoMap.map ((∅ : AList (fun _ : String => Value)).insert key value) }
  | GoMap.map a => { cfg with tags := GoMap.map (a.insert key value) }

/-- The option `WithSpanOptions(opts...)`. -/
def WithSpanOptions (opts : List StartSpanOption) : InterceptorOption := fun cfg =>
  { cfg with spanOpts := cfg.spanOpts ++ opts }

/-- The option `WithAnalytics(on)`; the parameter `on` is called `enabled` here. -/
def WithAnalytics (enabled : Bool) : InterceptorOption := fun cfg =>
  if enabled then WithSpanOptions [StartSpanOption.AnalyticsRate (Float64.finite 1)] cfg else cfg

/-- The option `WithAnalyticsRate(rate)`. -/
def WithAnalyticsRate (rate : Float64) : InterceptorOption := fun cfg =>
  if Float64.ge rate (Float64.finite 0) && Float64.le rate (Float64.finite 1) then
    WithSpanOptions [StartSpanOption.AnalyticsRate rate] cfg
  else cfg

/-- The option `WithIgnoredMetadata(ms...)`: the loop
`for _, e := range ms { cfg.ignoredMetadata[e] = struct{}{} }` on the map the
config already holds.  This is the one option that can panic (an assignment to
an entry of a nil map), so its result is an `Option`: `none` is the panic. -/
def WithIgnoredMetadata (ms : List String) (cfg : config) : Option config :=
  match ms.foldlM (fun m e => GoMap.set m e ()) cfg.ignoredMetadata with
  | none => none
  | some m => some { cfg with ignoredMetadata := m }

/-- The condition `0 <= rate <= 1` of the specification, read on the numerical
value of the rate: not-a-number and the infinities are outside, both zeros are
inside. -/
def specInUnitInterval : Float64 → Bool
  | Float64.finite q => decide (0 ≤ q) && decide (q ≤ 1)
  | Float64.negZero => true
  | _ => false

/-! ## `connect.go`: opening a span -/

/-- The method `cfg.startSpanOptions(opts...)`.  Go leaves the order in which
`range cfg.tags` visits the map unspecified: `rangeOrder` is the sequence of
entries that the loop visits, some arrangement of `cfg.tags.entries`. -/
def config.startSpanOptions (cfg : config) (rangeOrder : List (String × Value))
    (opts : List StartSpanOption) : List StartSpanOption :=
  if cfg.tags.len = 0 ∧ cfg.spanOpts.length = 0 then opts
  else
    let ret : List StartSpanOption := []
    let ret := ret ++ opts
    let ret := ret ++ cfg.spanOpts
    rangeOrder.foldl (fun ret kv => ret ++ [StartSpanOption.Tag kv.1 kv.2]) ret

/-- The function `strings.TrimPrefix(s, prefix)`, on character lists. -/
def TrimPrefix (s pre : List Char) : List Char :=
  if pre.isPrefixOf s then s.drop pre.length else s

/-- The function `strings.SplitN(s, sep, 2)` for a one-character separator:
`s` itself when `sep` does not occur, else the parts before and after its
first occurrence. -/
def SplitN2 (s : List Char) (sep : Char) : List (List Char) :=
  match s.span (fun c => c != sep) with
  | (before, []) => [before]
  | (before, _ :: after) => [before, after]

/-- The tag names and values of the tracer's `ext` package used by `startSpan`. -/
def extAppTypeRPC : String := "rpc"
def extRPCSystem : String := "rpc.system"
def extGRPCFullMethod : String := "rpc.grpc.full_method"
def extRPCService : String := "rpc.service"

/-- Modelled from the spec: the constants of `tags.go`, a file that is not among
the sources; `tags_test.go` pins their values. -/
def tagMethodName : String := "connect.method.name"
def tagMethodKind : String := "connect.method.kind"
def methodKindUnary : String := "unary"
def extRPCSystemConnect : String := "connect"

/-- The package variable `spanTypeRPC`. -/
def spanTypeRPC : StartSpanOption := StartSpanOption.SpanType extAppTypeRPC

/-- An `http.Header`. -/
abbrev Headers := List (String × List String)

/-- A `context.Context`, as far as this package looks into it: the span it carries. -/
structure Context where
  span : Option Span

/-- The function `tracer.StartSpanFromContext(ctx, operation, opts...)`: a new
span with that name and those options, and a context carrying it. -/
def StartSpanFromContext (_ctx : Context) (operation : String)
    (opts : List StartSpanOption) : Span × Context :=
  let span : Span := { name := operation, startOpts := opts, setTags := [], finishes := [] }
  (span, { span := some span })

/-- The function `startSpan`.  The tracer's `Extract` is the parameter `extract`
(`none` when it returns an error).  The result is `none` when the index
expression `methodElements[0]` is out of range. -/
def startSpan (extract : Headers → Option SpanContext) (ctx : Context) (headers : Headers)
    (method : String) (operation : String) (serviceFn : Unit → String)
    (opts : List StartSpanOption) : Option (Span × Context) :=
  let opts := opts ++ [StartSpanOption.ServiceName (serviceFn ()),
    StartSpanOption.ResourceName method,
    StartSpanOption.Tag tagMethodName (Value.str method)]
  let methodElements := SplitN2 (TrimPrefix method.data ['/']) '/'
  match methodElements.head? with
  | none => none
  | some service =>
      let opts := opts ++ [spanTypeRPC,
        StartSpanOption.Tag extRPCSystem (Value.str extRPCSystemConnect),
        StartSpanOption.Tag extGRPCFullMethod (Value.str method),
        StartSpanOption.Tag extRPCService (Value.str (String.mk service))]
      let opts :=
        match extract headers with
        | some sctx => opts ++ [StartSpanOption.ChildOf sctx]
        | none => opts
      some (StartSpanFromContext ctx operation opts)

/-- Modelled from the spec: the constant `tagCode` is declared in a file that is
not among the sources; `tags_test.go` pins its value. -/
def tagCode : String := "connect.code"

/-! ## `connect.go`: closing a span -/

/-- The function `finishWithError(span, err, cfg)`. -/
def finishWithError (span : Span) (err : Option GoError) (cfg : config) : Span :=
  -- if errors.Is(err, io.EOF) || errors.Is(err, context.Canceled) { err = nil }
  let err1 : Option GoError :=
    if errorsIs err GoError.eof || errorsIs err GoError.canceled then none else err
  -- if err != nil { errcode := ...; if cfg.nonErrorCodes[errcode] { err = nil }; span.SetTag(...) }
  let r : Option GoError × Span :=
    match err1 with
    | none => (none, span)
    | some e =>
        let errcode := CodeOf e
        let err2 : Option GoError :=
          if cfg.nonErrorCodes.index errcode false then none else some e
        (err2, span.SetTag tagCode (Value.str (codeString errcode)))
  let finishOptions : List FinishOption :=
    match r.1 with
    | none => []
    | some e =>
        if cfg.noDebugStack then [FinishOption.WithError e, FinishOption.NoDebugStack]
        else [FinishOption.WithError e]
  r.2.Finish finishOptions

/-! ## The server interceptor -/

/-- A `connect.AnyRequest`: the procedure of its spec, its headers, its message. -/
structure AnyRequest where
  procedure : String
  header : Headers
  msg : Value

/-- A `connect.UnaryFunc`: from the context and the request to the response
(possibly nil) and the error (possibly nil). -/
abbrev UnaryFunc := Context → AnyRequest → Option Value × Option GoError

/-- What one call of a wrapped unary function did: the response and error it
returned, and the span it opened and closed (`none` when it opened none). -/
structure UnaryCall where
  resp : Option Value
  err : Option GoError
  span : Option Span
  deriving DecidableEq

/-- Modelled from the spec: the struct `serverInterceptor` of `server.go`, a
file that is not among the sources.  It holds the configuration it was built
from. -/
structure serverInterceptor where
  cfg : config

/-- Modelled from the spec: the function `NewServerInterceptor(opts...)` of
`server.go`.  It takes the documented defaults and applies the options in the
order supplied. -/
def NewServerInterceptor (opts : List InterceptorOption) : serverInterceptor :=
  { cfg := opts.foldl (fun cfg opt => opt cfg) (serverDefaults config.zero) }

/-- Modelled from the spec: the method `WrapUnary` of `server.go`.  If the full
method name is in the ignored-method or untraced-method set, the inner handler
is invoked unmodified and no span is opened.  Otherwise the wrapper calls
`startSpan` with the configured operation name, invokes the inner handler with
the new context, calls `finishWithError` with the returned error and returns the
same response and error.  The result is `none` when `startSpan` fails. -/
def serverInterceptor.WrapUnary (si : serverInterceptor)
    (extract : Headers → Option SpanContext) (rangeOrder : List (String × Value))
    (next : UnaryFunc) (ctx : Context) (req : AnyRequest) : Option UnaryCall :=
  let method := req.procedure
  if (si.cfg.ignoredMethods.get? method).isSome || (si.cfg.untracedMethods.get? method).isSome then
    let r := next ctx req
    some { resp := r.1, err := r.2, span := none }
  else
    match startSpan extract ctx req.header method si.cfg.spanName si.cfg.serviceName
        (si.cfg.startSpanOptions rangeOrder
          [StartSpanOption.Tag tagMethodKind (Value.str methodKindUnary)]) with
    | none => none
    | some (span, ctx1) =>
        let r := next ctx1 req
        some { resp := r.1, err := r.2, span := some (finishWithError span r.2 si.cfg) }

/-! ## Helper lemmas: maps -/

theorem lookup_insertAll {K V : Type} [DecidableEq K] (ks : List K) (v : V)
    (a : AList (fun _ : K => V)) (k : K) :
    (GoMap.insertAll a ks v).lookup k = if k ∈ ks then some v else a.lookup k := by
  induction ks generalizing a with
  | nil => simp [GoMap.insertAll]
  | cons x xs ih =>
    have hstep : GoMap.insertAll a (x :: xs) v = GoMap.insertAll (a.insert x v) xs v := rfl
    rw [hstep, ih]
    by_cases hk : k ∈ xs
    · simp [hk]
    · by_cases hx : k = x
      · subst hx; simp [hk, AList.lookup_insert]
      · simp [hk, hx, AList.lookup_insert_ne hx]

theorem mem_insertAll_empty {K V : Type} [DecidableEq K] (ks : List K) (v : V) (k : K) :
    k ∈ GoMap.insertAll (∅ : AList (fun _ : K => V)) ks v ↔ k ∈ ks := by
  rw [← AList.lookup_isSome, lookup_insertAll]
  by_cases hk : k ∈ ks
  · simp [hk]
  · simp [hk, AList.lookup_empty]

theorem keys_insertAll_empty {K V : Type} [DecidableEq K] (ks : List K) (v : V) :
    (GoMap.insertAll (∅ : AList (fun _ : K => V)) ks v).keys.Perm ks.dedup := by
  rw [List.perm_ext_iff_of_nodup (AList.keys_nodup _) (List.nodup_dedup ks)]
  intro k
  rw [← AList.mem_keys, mem_insertAll_empty, List.mem_dedup]

theorem length_insertAll_empty {K V : Type} [DecidableEq K] (ks : List K) (v : V) :
    (GoMap.insertAll (∅ : AList (fun _ : K => V)) ks v).entries.length = ks.dedup.length := by
  have hlen := (keys_insertAll_empty ks v).length_eq
  simpa [AList.keys, List.keys] using hlen

theorem get?_fresh {K V : Type} [DecidableEq K] (ks : List K) (v : V) (k : K) :
    (GoMap.map (GoMap.insertAll (∅ : AList (fun _ : K => V)) ks v)).get? k =
      if k ∈ ks then some v else none := by
  simp [GoMap.get?, lookup_insertAll, AList.lookup_empty]

theorem entries_length {K V : Type} (m : GoMap K V) : m.entries.length = m.len := by
  cases m with
  | nil => rfl
  | map a => simp [GoMap.entries, GoMap.len]

theorem keys_length {K V : Type} (m : GoMap K V) : m.keys.length = m.len := by
  cases m with
  | nil => rfl
  | map a => simp [GoMap.keys, GoMap.len, AList.keys, List.keys]

theorem keys_nodup {K V : Type} (m : GoMap K V) : m.keys.Nodup := by
  cases m with
  | nil => exact List.nodup_nil
  | map a => exact AList.keys_nodup a

/-! ## Helper lemmas: start-span options and the interceptor -/

theorem foldl_append_singleton {α β : Type} (f : α → β) (l : List α) (init : List β) :
    l.foldl (fun ret x => ret ++ [f x]) init = init ++ l.map f := by
  induction l generalizing init with
  | nil => simp
  | cons x xs ih => simp [ih]

theorem startSpanOptions_eq (cfg : config) (rangeOrder : List (String × Value))
    (opts : List StartSpanOption) (h : rangeOrder.Perm cfg.tags.entries) :
    cfg.startSpanOptions rangeOrder opts =
      opts ++ cfg.spanOpts ++ rangeOrder.map (fun kv => StartSpanOption.Tag kv.1 kv.2) := by
  unfold config.startSpanOptions
  split
  · rename_i hc
    have h1 : rangeOrder = [] := by
      apply List.eq_nil_of_length_eq_zero
      rw [h.length_eq, entries_length]; exact hc.1
    have h2 : cfg.spanOpts = [] := List.eq_nil_of_length_eq_zero hc.2
    simp [h1, h2]
  · simp [foldl_append_singleton (fun kv : String × Value => StartSpanOption.Tag kv.1 kv.2)]

theorem WrapUnary_of_skipped (si : serverInterceptor)
    (extract : Headers → Option SpanContext) (rangeOrder : List (String × Value))
    (next : UnaryFunc) (ctx : Context) (req : AnyRequest)
    (h : (si.cfg.ignoredMethods.get? req.procedure).isSome = true ∨
      (si.cfg.untracedMethods.get? req.procedure).isSome = true) :
    si.WrapUnary extract rangeOrder next ctx req =
      some { resp := (next ctx req).1, err := (next ctx req).2, span := none } := by
  unfold serverInterceptor.WrapUnary
  rcases h with h | h
  · simp [h]
  · simp [h]

theorem ignoredMethods_last (pre : List InterceptorOption) (ms : List String) :
    (NewServerInterceptor (pre ++ [WithIgnoredMethods ms])).cfg.ignoredMethods =
      GoMap.map (GoMap.insertAll ∅ ms ()) := by
  simp [NewServerInterceptor, List.foldl_append, WithIgnoredMethods]

theorem untracedMethods_last (pre : List InterceptorOption) (ms : List String) :
    (NewServerInterceptor (pre ++ [WithUntracedMethods ms])).cfg.untracedMethods =
      GoMap.map (GoMap.insertAll ∅ ms ()) := by
  simp [NewServerInterceptor, List.foldl_append, WithUntracedMethods]

/-! ## Helper lemmas: closing a span -/

theorem finishWithError_of_suppressed (span : Span) (err : Option GoError) (cfg : config)
    (h : err = none ∨ errorsIs err GoError.eof = true ∨ errorsIs err GoError.canceled = true) :
    finishWithError span err cfg = span.Finish [] := by
  rcases h with h | h | h
  · subst h; rfl
  · simp [finishWithError, h]
  · simp [finishWithError, h]

theorem finishWithError_of_real (span : Span) (e : GoError) (cfg : config)
    (h1 : errorsIs (some e) GoError.eof = false)
    (h2 : errorsIs (some e) GoError.canceled = false) :
    finishWithError span (some e) cfg =
      (span.SetTag tagCode (Value.str (codeString (CodeOf e)))).Finish
        (if cfg.nonErrorCodes.index (CodeOf e) false = true then []
         else if cfg.noDebugStack = true then
           [FinishOption.WithError e, FinishOption.NoDebugStack]
         else [FinishOption.WithError e]) := by
  simp only [finishWithError, h1, h2]
  by_cases hc : cfg.nonErrorCodes.index (CodeOf e) false = true
  · simp [hc]
  · simp [hc]

theorem markedFailed_Finish_nil (span : Span) :
    (span.Finish []).markedFailed = span.markedFailed := by
  simp [Span.markedFailed, Span.Finish]

theorem markedFailed_SetTag (span : Span) (key : String) (value : Value) :
    (span.SetTag key value).markedFailed = span.markedFailed := rfl

theorem markedFailed_Finish_WithError (span : Span) (e : GoError) (rest : List FinishOption) :
    (span.Finish (FinishOption.WithError e :: rest)).markedFailed = true := by
  simp [Span.markedFailed, Span.Finish]

/-! ## Helper lemmas: additive metadata, sampling rates, method strings -/

theorem foldlM_set_map (ms : List String) (a : AList (fun _ : String => Unit)) :
    ms.foldlM (fun m e => GoMap.set m e ()) (GoMap.map a) =
      some (GoMap.map (GoMap.insertAll a ms ())) := by
  induction ms generalizing a with
  | nil => rfl
  | cons x xs ih =>
    simp only [List.foldlM_cons, GoMap.set]
    exact ih (a.insert x ())

theorem WithIgnoredMetadata_of_map (cfg : config) (a : AList (fun _ : String => Unit))
    (ms : List String) (h : cfg.ignoredMetadata = GoMap.map a) :
    WithIgnoredMetadata ms cfg =
      some { cfg with ignoredMetadata := GoMap.map (GoMap.insertAll a ms ()) } := by
  unfold WithIgnoredMetadata
  rw [h, foldlM_set_map]

theorem rate_test_eq_spec (rate : Float64) :
    (Float64.ge rate (Float64.finite 0) && Float64.le rate (Float64.finite 1)) =
      specInUnitInterval rate := by
  cases rate <;> simp [Float64.ge, Float64.le, Float64.key, specInUnitInterval]

theorem span_append_sep (p : Char → Bool) (l1 l2 : List Char) (x : Char)
    (h1 : ∀ c ∈ l1, p c = true) (hx : p x = false) :
    (l1 ++ x :: l2).span p = (l1, x :: l2) := by
  rw [List.span_eq_take_drop]
  induction l1 with
  | nil => simp [List.takeWhile, List.dropWhile, hx]
  | cons c cs ih =>
    have hc : p c = true := h1 c (List.mem_cons_self c cs)
    have ih2 := ih (fun d hd => h1 d (List.mem_cons_of_mem c hd))
    simp only [List.cons_append, List.takeWhile_cons, List.dropWhile_cons, hc, if_true]
    simp only [Prod.mk.injEq] at ih2 ⊢
    exact ⟨by rw [ih2.1], ih2.2⟩

theorem head?_SplitN2_isSome (s : List Char) (sep : Char) :
    ∃ seg, (SplitN2 s sep).head? = some seg := by
  unfold SplitN2
  split <;> exact ⟨_, rfl⟩

theorem data_slash_method (svc rest : String) :
    ("/" ++ svc ++ "/" ++ rest).data = '/' :: (svc.data ++ '/' :: rest.data) := by
  simp [String.data_append]

theorem TrimPrefix_slash (l : List Char) : TrimPrefix ('/' :: l) ['/'] = l := by
  simp [TrimPrefix, List.isPrefixOf]

theorem SplitN2_of_sep (l1 l2 : List Char) (sep : Char) (h : sep ∉ l1) :
    SplitN2 (l1 ++ sep :: l2) sep = [l1, l2] := by
  unfold SplitN2
  rw [span_append_sep (fun c => c != sep) l1 l2 sep]
  · intro c hc
    have hne : c ≠ sep := fun heq => h (heq ▸ hc)
    simpa using hne
  · simp

/-! ## Closing a span: the three outcomes -/

/-- C1: when `err` is nil, or matches `io.EOF` or `context.Canceled` under
`errors.Is` (wrapped or not), `finishWithError` does nothing but call `Finish`
with no finish options: no tag is set, and the span is no more marked failed
than it was. -/
theorem finishWithError_nil_eof_canceled (span : Span) (err : Option GoError) (cfg : config)
    (h : err = none ∨ errorsIs err GoError.eof = true ∨ errorsIs err GoError.canceled = true) :
    finishWithError span err cfg = span.Finish [] ∧
    (finishWithError span err cfg).setTags = span.setTags ∧
    (finishWithError span err cfg).finishes = span.finishes ++ [[]] ∧
    (finishWithError span err cfg).markedFailed = span.markedFailed := by
  rw [finishWithError_of_suppressed span err cfg h]
  exact ⟨rfl, rfl, rfl, markedFailed_Finish_nil span⟩

theorem finishWithError_nil_eof_canceled_witness :
    (some (GoError.wrap "recv" GoError.eof) = none ∨
      errorsIs (some (GoError.wrap "recv" GoError.eof)) GoError.eof = true ∨
      errorsIs (some (GoError.wrap "recv" GoError.eof)) GoError.canceled = true) ∧
    (finishWithError ⟨"op", [], [], []⟩ (some (GoError.wrap "recv" GoError.eof)) config.zero
        = Span.Finish ⟨"op", [], [], []⟩ [] ∧
      (finishWithError ⟨"op", [], [], []⟩ (some (GoError.wrap "recv" GoError.eof))
        config.zero).setTags = [] ∧
      (finishWithError ⟨"op", [], [], []⟩ (some (GoError.wrap "recv" GoError.eof))
        config.zero).finishes = [] ++ [[]] ∧
      (finishWithError ⟨"op", [], [], []⟩ (some (GoError.wrap "recv" GoError.eof))
        config.zero).markedFailed = false) :=
  ⟨Or.inr (Or.inl (by decide)),
    finishWithError_nil_eof_canceled ⟨"op", [], [], []⟩ (some (GoError.wrap "recv" GoError.eof))
      config.zero (Or.inr (Or.inl (by decide)))⟩

/-- C2: for a non-nil error that matches neither `io.EOF` nor `context.Canceled`
and whose code is not a non-error code of the config (`cfg.nonErrorCodes[code]`
is false, which covers an absent key and a nil map), `finishWithError` sets the
tag `tagCode` to the string of the code and calls `Finish` with `WithError(err)`
for that same error (followed by `NoDebugStack()` when the config asks for it):
the span is marked failed. -/
theorem finishWithError_real_error (span : Span) (e : GoError) (cfg : config)
    (h1 : errorsIs (some e) GoError.eof = false)
    (h2 : errorsIs (some e) GoError.canceled = false)
    (h3 : cfg.nonErrorCodes.index (CodeOf e) false = false) :
    finishWithError span (some e) cfg =
      (span.SetTag tagCode (Value.str (codeString (CodeOf e)))).Finish
        (if cfg.noDebugStack = true then
           [FinishOption.WithError e, FinishOption.NoDebugStack]
         else [FinishOption.WithError e]) ∧
    (finishWithError span (some e) cfg).setTags =
      span.setTags ++ [(tagCode, Value.str (codeString (CodeOf e)))] ∧
    (∃ rest, (finishWithError span (some e) cfg).finishes =
      span.finishes ++ [FinishOption.WithError e :: rest]) ∧
    (finishWithError span (some e) cfg).markedFailed = true := by
  rw [finishWithError_of_real span e cfg h1 h2]
  simp only [h3, Bool.false_eq_true, if_false]
  refine ⟨trivial, rfl, ?_, ?_⟩
  · by_cases hd : cfg.noDebugStack = true
    · exact ⟨[FinishOption.NoDebugStack], by simp [hd, Span.Finish, Span.SetTag]⟩
    · exact ⟨[], by simp [hd, Span.Finish, Span.SetTag]⟩
  · by_cases hd : cfg.noDebugStack = true
    · simp only [hd, if_true]; exact markedFailed_Finish_WithError _ _ _
    · simp only [hd, if_false]; exact markedFailed_Finish_WithError _ _ _

theorem finishWithError_real_error_witness :
    finishWithError ⟨"op", [], [], []⟩
        (some (GoError.connectError CodeUnavailable (GoError.new "unavailable"))) config.zero
      = ⟨"op", [], [("connect.code", Value.str "unavailable")],
          [[FinishOption.WithError
            (GoError.connectError CodeUnavailable (GoError.new "unavailable"))]]⟩ ∧
    (finishWithError ⟨"op", [], [], []⟩
        (some (GoError.connectError CodeUnavailable (GoError.new "unavailable")))
        config.zero).markedFailed = true := by
  have h := finishWithError_real_error ⟨"op", [], [], []⟩
    (GoError.connectError CodeUnavailable (GoError.new "unavailable")) config.zero
    (by decide) (by decide) (by decide)
  exact ⟨h.1.trans (by decide), h.2.2.2⟩

/-- C3: for a non-nil error that matches neither `io.EOF` nor `context.Canceled`
and whose code is a non-error code of the config (`cfg.nonErrorCodes[code]` is
true, the test the code makes), `finishWithError` still sets the tag `tagCode`
to the string of the code, but calls `Finish` with no finish options: the span
is no more marked failed than it was. -/
theorem finishWithError_non_error_code (span : Span) (e : GoError) (cfg : config)
    (h1 : errorsIs (some e) GoError.eof = false)
    (h2 : errorsIs (some e) GoError.canceled = false)
    (h3 : cfg.nonErrorCodes.index (CodeOf e) false = true) :
    finishWithError span (some e) cfg =
      (span.SetTag tagCode (Value.str (codeString (CodeOf e)))).Finish [] ∧
    (finishWithError span (some e) cfg).setTags =
      span.setTags ++ [(tagCode, Value.str (codeString (CodeOf e)))] ∧
    (finishWithError span (some e) cfg).finishes = span.finishes ++ [[]] ∧
    (finishWithError span (some e) cfg).markedFailed = span.markedFailed := by
  rw [finishWithError_of_real span e cfg h1 h2]
  simp only [h3, if_true]
  exact ⟨trivial, rfl, rfl, (markedFailed_Finish_nil _).trans (markedFailed_SetTag _ _ _)⟩

theorem finishWithError_non_error_code_witness :
    finishWithError ⟨"op", [], [], []⟩
        (some (GoError.connectError CodeUnavailable (GoError.new "unavailable")))
        (NonErrorCodes [CodeUnavailable] config.zero)
      = ⟨"op", [], [("connect.code", Value.str "unavailable")], [[]]⟩ ∧
    (finishWithError ⟨"op", [], [], []⟩
        (some (GoError.connectError CodeUnavailable (GoError.new "unavailable")))
        (NonErrorCodes [CodeUnavailable] config.zero)).markedFailed = false := by
  have h := finishWithError_non_error_code ⟨"op", [], [], []⟩
    (GoError.connectError CodeUnavailable (GoError.new "unavailable"))
    (NonErrorCodes [CodeUnavailable] config.zero) (by decide) (by decide) (by decide)
  exact ⟨h.1.trans (by decide), h.2.2.2.trans (by decide)⟩

/-- C4: for every error (nil or not) and every config (a nil `nonErrorCodes`
map included), `finishWithError` returns and has called `Finish` exactly once:
the span's record of `Finish` calls is one call longer, whichever branch ran. -/
theorem finishWithError_finishes_once (span : Span) (err : Option GoError) (cfg : config) :
    (∃ opts, (finishWithError span err cfg).finishes = span.finishes ++ [opts]) ∧
    (finishWithError span err cfg).finishes.length = span.finishes.length + 1 := by
  have key : ∃ opts, (finishWithError span err cfg).finishes = span.finishes ++ [opts] := by
    cases err with
    | none => exact ⟨[], by rw [finishWithError_of_suppressed span none cfg (Or.inl rfl)]; rfl⟩
    | some e =>
      by_cases h1 : errorsIs (some e) GoError.eof = true
      · exact ⟨[], by
          rw [finishWithError_of_suppressed span (some e) cfg (Or.inr (Or.inl h1))]; rfl⟩
      · by_cases h2 : errorsIs (some e) GoError.canceled = true
        · exact ⟨[], by
            rw [finishWithError_of_suppressed span (some e) cfg (Or.inr (Or.inr h2))]; rfl⟩
        · rw [finishWithError_of_real span e cfg (by simpa using h1) (by simpa using h2)]
          exact ⟨_, rfl⟩
  refine ⟨key, ?_⟩
  obtain ⟨opts, h⟩ := key
  rw [h]; simp

/-! ## Skipped methods -/

/-- C5: an interceptor whose last option is `WithIgnoredMethods(ms...)` or
`WithUntracedMethods(ms...)`, called on a unary request whose procedure is an
element of `ms`, opens no span and returns exactly the response and error of
the inner handler, called with the caller's own context. -/
theorem WrapUnary_ignored_or_untraced (pre : List InterceptorOption) (ms : List String)
    (extract : Headers → Option SpanContext) (rangeOrder : List (String × Value))
    (next : UnaryFunc) (ctx : Context) (req : AnyRequest) (h : req.procedure ∈ ms) :
    (NewServerInterceptor (pre ++ [WithIgnoredMethods ms])).WrapUnary extract rangeOrder
        next ctx req =
      some { resp := (next ctx req).1, err := (next ctx req).2, span := none } ∧
    (NewServerInterceptor (pre ++ [WithUntracedMethods ms])).WrapUnary extract rangeOrder
        next ctx req =
      some { resp := (next ctx req).1, err := (next ctx req).2, span := none } := by
  constructor
  · apply WrapUnary_of_skipped
    left
    rw [ignoredMethods_last, get?_fresh]
    simp [h]
  · apply WrapUnary_of_skipped
    right
    rw [untracedMethods_last, get?_fresh]
    simp [h]

theorem WrapUnary_ignored_or_untraced_witness :
    (NewServerInterceptor ([] ++ [WithIgnoredMethods ["/test.Service/IgnoredMethod"]])).WrapUnary
        (fun _ => none) []
        (fun _ _ => (some (Value.str "pong"), some (GoError.new "boom")))
        ⟨none⟩ ⟨"/test.Service/IgnoredMethod", [], Value.str "ping"⟩ =
      some { resp := some (Value.str "pong"), err := some (GoError.new "boom"), span := none } ∧
    (NewServerInterceptor ([] ++ [WithUntracedMethods ["/test.Service/IgnoredMethod"]])).WrapUnary
        (fun _ => none) []
        (fun _ _ => (some (Value.str "pong"), some (GoError.new "boom")))
        ⟨none⟩ ⟨"/test.Service/IgnoredMethod", [], Value.str "ping"⟩ =
      some { resp := some (Value.str "pong"), err := some (GoError.new "boom"), span := none } :=
  WrapUnary_ignored_or_untraced [] ["/test.Service/IgnoredMethod"] (fun _ => none) []
    (fun _ _ => (some (Value.str "pong"), some (GoError.new "boom")))
    ⟨none⟩ ⟨"/test.Service/IgnoredMethod", [], Value.str "ping"⟩ (by decide)

/-! ## Start-span options -/

/-- C6: whatever order `range cfg.tags` visits the entries in,
`cfg.startSpanOptions(base...)` is `base`, then `cfg.spanOpts` in their stored
order, then one `Tag(key, value)` per entry of `cfg.tags` in the order visited;
with no tags and no span options the result is `base` itself. -/
theorem startSpanOptions_layout (cfg : config) (rangeOrder : List (String × Value))
    (base : List StartSpanOption) (h : rangeOrder.Perm cfg.tags.entries) :
    cfg.startSpanOptions rangeOrder base =
      base ++ cfg.spanOpts ++ rangeOrder.map (fun kv => StartSpanOption.Tag kv.1 kv.2) ∧
    (cfg.tags.len = 0 ∧ cfg.spanOpts = [] → cfg.startSpanOptions rangeOrder base = base) := by
  refine ⟨startSpanOptions_eq cfg rangeOrder base h, ?_⟩
  rintro ⟨h1, h2⟩
  simp [config.startSpanOptions, h1, h2]

theorem startSpanOptions_layout_witness :
    [("a", Value.str "1"), ("b", Value.str "2")].Perm
      (WithCustomTag "b" (Value.str "2")
        (WithCustomTag "a" (Value.str "1") config.zero)).tags.entries ∧
    (WithCustomTag "b" (Value.str "2")
        (WithCustomTag "a" (Value.str "1") config.zero)).startSpanOptions
        [("a", Value.str "1"), ("b", Value.str "2")] [StartSpanOption.ServiceName "test"] =
      [StartSpanOption.ServiceName "test", StartSpanOption.Tag "a" (Value.str "1"),
        StartSpanOption.Tag "b" (Value.str "2")] :=
  ⟨by decide,
    (startSpanOptions_layout
      (WithCustomTag "b" (Value.str "2") (WithCustomTag "a" (Value.str "1") config.zero))
      [("a", Value.str "1"), ("b", Value.str "2")] [StartSpanOption.ServiceName "test"]
      (by decide)).1.trans (by decide)⟩

/-- C7: with `N = len(cfg.tags)` custom tags (the number of distinct keys of the
map) and `M = len(cfg.spanOpts)` extra span options,
`len(cfg.startSpanOptions(base...)) = len(base) + N + M`, whatever order the
tags are visited in. -/
theorem startSpanOptions_length (cfg : config) (rangeOrder : List (String × Value))
    (base : List StartSpanOption) (h : rangeOrder.Perm cfg.tags.entries) :
    (cfg.startSpanOptions rangeOrder base).length =
      base.length + cfg.tags.len + cfg.spanOpts.length ∧
    cfg.tags.keys.Nodup ∧ cfg.tags.keys.length = cfg.tags.len := by
  refine ⟨?_, keys_nodup cfg.tags, keys_length cfg.tags⟩
  rw [startSpanOptions_eq cfg rangeOrder base h]
  simp only [List.length_append, List.length_map]
  rw [h.length_eq, entries_length]
  omega

theorem startSpanOptions_length_witness :
    ((WithSpanOptions [StartSpanOption.Tag "span_tag" (Value.str "span_value")]
        (WithCustomTag "tag2" (Value.str "value2")
          (WithCustomTag "tag1" (Value.str "value1") config.zero))).startSpanOptions
        [("tag1", Value.str "value1"), ("tag2", Value.str "value2")]
        [StartSpanOption.ServiceName "test"]).length = 1 + 2 + 1 :=
  (startSpanOptions_length
    (WithSpanOptions [StartSpanOption.Tag "span_tag" (Value.str "span_value")]
      (WithCustomTag "tag2" (Value.str "value2")
        (WithCustomTag "tag1" (Value.str "value1") config.zero)))
    [("tag1", Value.str "value1"), ("tag2", Value.str "value2")]
    [StartSpanOption.ServiceName "test"] (by decide)).1

/-! ## Options that replace a set -/

/-- C8: after `NonErrorCodes(cs...)`, whatever `cfg.nonErrorCodes` held before,
the key `c` is present in the map exactly when `c` occurs in `cs` (and then
holds `true`), `cfg.nonErrorCodes[c]` is true exactly when `c` occurs in `cs`,
and the map has as many entries as `cs` has distinct codes. -/
theorem NonErrorCodes_exact (cfg : config) (cs : List Code) :
    (∀ c, (NonErrorCodes cs cfg).nonErrorCodes.get? c = if c ∈ cs then some true else none) ∧
    (∀ c, (NonErrorCodes cs cfg).nonErrorCodes.index c false = true ↔ c ∈ cs) ∧
    (NonErrorCodes cs cfg).nonErrorCodes.len = cs.dedup.length := by
  refine ⟨fun c => get?_fresh cs true c, fun c => ?_, length_insertAll_empty cs true⟩
  have hg : (NonErrorCodes cs cfg).nonErrorCodes.get? c = if c ∈ cs then some true else none :=
    get?_fresh cs true c
  unfold GoMap.index
  rw [hg]
  by_cases hc : c ∈ cs
  · simp [hc]
  · simp [hc]

/-- C10: `WithIgnoredMethods` and `WithUntracedMethods` replace the set: after
the option for `ms1` and then the option for `ms2`, a name is a key of the map
exactly when it occurs in `ms2`, and the map has as many entries as `ms2` has
distinct names; the earlier value of the field and `ms1` leave no trace. -/
theorem WithIgnoredMethods_replaces (cfg : config) (ms1 ms2 : List String) :
    (∀ k, ((WithIgnoredMethods ms2 (WithIgnoredMethods ms1 cfg)).ignoredMethods.get? k).isSome
      = true ↔ k ∈ ms2) ∧
    (WithIgnoredMethods ms2 (WithIgnoredMethods ms1 cfg)).ignoredMethods.len
      = ms2.dedup.length ∧
    (∀ k, ((WithUntracedMethods ms2 (WithUntracedMethods ms1 cfg)).untracedMethods.get? k).isSome
      = true ↔ k ∈ ms2) ∧
    (WithUntracedMethods ms2 (WithUntracedMethods ms1 cfg)).untracedMethods.len
      = ms2.dedup.length := by
  refine ⟨fun k => ?_, length_insertAll_empty ms2 (), fun k => ?_,
    length_insertAll_empty ms2 ()⟩
  · have hg : (WithIgnoredMethods ms2 (WithIgnoredMethods ms1 cfg)).ignoredMethods.get? k =
        if k ∈ ms2 then some () else none := get?_fresh ms2 () k
    rw [hg]
    by_cases hk : k ∈ ms2
    · simp [hk]
    · simp [hk]
  · have hg : (WithUntracedMethods ms2 (WithUntracedMethods ms1 cfg)).untracedMethods.get? k =
        if k ∈ ms2 then some () else none := get?_fresh ms2 () k
    rw [hg]
    by_cases hk : k ∈ ms2
    · simp [hk]
    · simp [hk]

/-! ## Overriding the default non-error code -/

/-- C9, as stated, fails: `connect.NewError(connect.CodeCanceled, context.Canceled)`
has code `Canceled`, the config is `serverDefaults` followed by `NonErrorCodes()`
without `Canceled`, and yet no tag is set and `Finish` is called with no options,
because the error matches `context.Canceled` under `errors.Is`. -/
theorem NonErrorCodes_canceled_counterexample :
    CodeCanceled ∉ ([] : List Code) ∧
    CodeOf (GoError.connectError CodeCanceled GoError.canceled) = CodeCanceled ∧
    finishWithError ⟨"op", [], [], []⟩
        (some (GoError.connectError CodeCanceled GoError.canceled))
        (NonErrorCodes [] (serverDefaults config.zero)) = ⟨"op", [], [], [[]]⟩ ∧
    (finishWithError ⟨"op", [], [], []⟩
        (some (GoError.connectError CodeCanceled GoError.canceled))
        (NonErrorCodes [] (serverDefaults config.zero))).markedFailed = false := by
  decide

/-- C9, amended: for a config built by `serverDefaults` followed by
`NonErrorCodes(cs...)` with `Canceled` not in `cs`, and an error whose code is
`Canceled` and which matches neither `io.EOF` nor `context.Canceled` under
`errors.Is`, `finishWithError` tags the span with `canceled` and calls `Finish`
with `WithError(err)`: the span is marked failed.  Under `serverDefaults` alone
the same error is tagged but the span is not marked failed. -/
theorem NonErrorCodes_overrides_canceled (cfg0 : config) (cs : List Code) (span : Span)
    (e : GoError) (hcs : CodeCanceled ∉ cs) (hcode : CodeOf e = CodeCanceled)
    (h1 : errorsIs (some e) GoError.eof = false)
    (h2 : errorsIs (some e) GoError.canceled = false) :
    finishWithError span (some e) (NonErrorCodes cs (serverDefaults cfg0)) =
      (span.SetTag tagCode (Value.str "canceled")).Finish
        (if cfg0.noDebugStack = true then
           [FinishOption.WithError e, FinishOption.NoDebugStack]
         else [FinishOption.WithError e]) ∧
    (finishWithError span (some e) (NonErrorCodes cs (serverDefaults cfg0))).markedFailed
      = true ∧
    finishWithError span (some e) (serverDefaults cfg0) =
      (span.SetTag tagCode (Value.str "canceled")).Finish [] := by
  have hidx : (NonErrorCodes cs (serverDefaults cfg0)).nonErrorCodes.index (CodeOf e) false
      = false := by
    have hg : (NonErrorCodes cs (serverDefaults cfg0)).nonErrorCodes.get? (CodeOf e) =
        if CodeOf e ∈ cs then some true else none := get?_fresh cs true (CodeOf e)
    unfold GoMap.index
    rw [hg, hcode]
    simp [hcs]
  have hdef : (serverDefaults cfg0).nonErrorCodes.index (CodeOf e) false = true := by
    rw [hcode]; rfl
  have hstack : (NonErrorCodes cs (serverDefaults cfg0)).noDebugStack = cfg0.noDebugStack := rfl
  have hstr : codeString (CodeOf e) = "canceled" := by rw [hcode]; rfl
  rw [finishWithError_of_real span e _ h1 h2, finishWithError_of_real span e _ h1 h2,
    hidx, hdef, hstack, hstr]
  simp only [Bool.false_eq_true, if_false, if_true]
  refine ⟨trivial, ?_, trivial⟩
  by_cases hd : cfg0.noDebugStack = true
  · simp only [hd, if_true]; exact markedFailed_Finish_WithError _ _ _
  · simp only [hd, if_false]; exact markedFailed_Finish_WithError _ _ _

theorem NonErrorCodes_overrides_canceled_witness :
    finishWithError ⟨"op", [], [], []⟩
        (some (GoError.connectErrorNil CodeCanceled))
        (NonErrorCodes [CodeUnavailable] (serverDefaults config.zero)) =
      ⟨"op", [], [("connect.code", Value.str "canceled")],
        [[FinishOption.WithError (GoError.connectErrorNil CodeCanceled)]]⟩ ∧
    finishWithError ⟨"op", [], [], []⟩
        (some (GoError.connectErrorNil CodeCanceled)) (serverDefaults config.zero) =
      ⟨"op", [], [("connect.code", Value.str "canceled")], [[]]⟩ := by
  have h := NonErrorCodes_overrides_canceled config.zero [CodeUnavailable] ⟨"op", [], [], []⟩
    (GoError.connectErrorNil CodeCanceled) (by decide) (by decide) (by decide) (by decide)
  exact ⟨h.1.trans (by decide), h.2.2.trans (by decide)⟩

/-! ## The additive option -/

/-- C11: on a config whose `ignoredMetadata` map is allocated,
`WithIgnoredMetadata(ms...)` returns (it does not panic), changes no other field,
and leaves a map in which a key is present exactly when it was present before
or occurs in `ms`: every key ignored before is still ignored and no key outside
`ms` is added. -/
theorem WithIgnoredMetadata_additive (cfg : config) (a : AList (fun _ : String => Unit))
    (ms : List String) (h : cfg.ignoredMetadata = GoMap.map a) :
    ∃ cfg1, WithIgnoredMetadata ms cfg = some cfg1 ∧
      cfg1 = { cfg with ignoredMetadata := cfg1.ignoredMetadata } ∧
      (∀ k, (cfg1.ignoredMetadata.get? k).isSome = true ↔
        ((cfg.ignoredMetadata.get? k).isSome = true ∨ k ∈ ms)) := by
  refine ⟨{ cfg with ignoredMetadata := GoMap.map (GoMap.insertAll a ms ()) },
    WithIgnoredMetadata_of_map cfg a ms h, rfl, fun k => ?_⟩
  rw [h]
  simp only [GoMap.get?, lookup_insertAll]
  by_cases hk : k ∈ ms
  · simp [hk]
  · simp [hk]

theorem WithIgnoredMetadata_additive_witness :
    (serverDefaults config.zero).ignoredMetadata =
      GoMap.map (GoMap.insertAll ∅
        ["x-datadog-trace-id", "x-datadog-parent-id", "x-datadog-sampling-priority"] ()) ∧
    (∃ cfg1, WithIgnoredMetadata ["custom-header-1", "x-datadog-trace-id"]
        (serverDefaults config.zero) = some cfg1 ∧
      cfg1 = { serverDefaults config.zero with ignoredMetadata := cfg1.ignoredMetadata } ∧
      (∀ k, (cfg1.ignoredMetadata.get? k).isSome = true ↔
        (((serverDefaults config.zero).ignoredMetadata.get? k).isSome = true ∨
          k ∈ ["custom-header-1", "x-datadog-trace-id"]))) ∧
    (WithIgnoredMetadata ["custom-header-1", "x-datadog-trace-id"]
        (serverDefaults config.zero)).map (fun c => c.ignoredMetadata.keys) =
      some ["x-datadog-trace-id", "custom-header-1", "x-datadog-sampling-priority",
        "x-datadog-parent-id"] :=
  ⟨rfl,
    WithIgnoredMetadata_additive (serverDefaults config.zero) _
      ["custom-header-1", "x-datadog-trace-id"] rfl,
    by decide⟩

/-! ## The analytics sampling rate -/

/-- C12: `WithAnalyticsRate(rate)` returns for every config and every rate; when
`0 <= rate <= 1` the result is the config with exactly `AnalyticsRate(rate)`
appended at the end of `spanOpts` and every other field as it was, otherwise the
result is the config unchanged; so an option is appended if and only if
`0 <= rate <= 1`. -/
theorem WithAnalyticsRate_unit_interval (cfg : config) (rate : Float64) :
    WithAnalyticsRate rate cfg =
      (if specInUnitInterval rate = true then
        { cfg with spanOpts := cfg.spanOpts ++ [StartSpanOption.AnalyticsRate rate] }
       else cfg) ∧
    ((WithAnalyticsRate rate cfg).spanOpts =
        cfg.spanOpts ++ [StartSpanOption.AnalyticsRate rate] ↔
      specInUnitInterval rate = true) ∧
    ((WithAnalyticsRate rate cfg).spanOpts = cfg.spanOpts ↔
      specInUnitInterval rate = false) := by
  have hw : WithAnalyticsRate rate cfg =
      (if specInUnitInterval rate = true then
        { cfg with spanOpts := cfg.spanOpts ++ [StartSpanOption.AnalyticsRate rate] }
       else cfg) := by
    unfold WithAnalyticsRate
    rw [rate_test_eq_spec]
    rfl
  refine ⟨hw, ?_, ?_⟩
  · rw [hw]
    by_cases hr : specInUnitInterval rate = true
    · simp [hr]
    · simp [hr]
  · rw [hw]
    by_cases hr : specInUnitInterval rate = true
    · simp [hr]
    · simp [hr]

/-! ## The server defaults -/

/-- C13: after `serverDefaults(cfg)`, whatever `cfg` held: the service-name
provider returns `connect.server`, `spanName` is `connect.server.request`,
`traceStreamCalls` and `traceStreamMessages` are true, `nonErrorCodes` holds the
one entry `Canceled: true`, and `ignoredMetadata` holds exactly the three keys
`x-datadog-trace-id`, `x-datadog-parent-id`, `x-datadog-sampling-priority`. -/
theorem serverDefaults_values (cfg : config) :
    (serverDefaults cfg).serviceName () = "connect.server" ∧
    (serverDefaults cfg).spanName = "connect.server.request" ∧
    (serverDefaults cfg).traceStreamCalls = true ∧
    (serverDefaults cfg).traceStreamMessages = true ∧
    (∀ c, (serverDefaults cfg).nonErrorCodes.get? c =
      if c = CodeCanceled then some true else none) ∧
    (serverDefaults cfg).nonErrorCodes.len = 1 ∧
    (∀ k, ((serverDefaults cfg).ignoredMetadata.get? k).isSome = true ↔
      k ∈ ["x-datadog-trace-id", "x-datadog-parent-id", "x-datadog-sampling-priority"]) ∧
    (serverDefaults cfg).ignoredMetadata.len = 3 := by
  refine ⟨rfl, rfl, rfl, rfl, fun c => ?_, rfl, fun k => ?_, rfl⟩
  · have hg : (serverDefaults cfg).nonErrorCodes.get? c =
        ((∅ : AList (fun _ : Code => Bool)).insert CodeCanceled true).lookup c := rfl
    rw [hg]
    by_cases hc : c = CodeCanceled
    · subst hc
      rw [AList.lookup_insert, if_pos rfl]
    · rw [AList.lookup_insert_ne hc, AList.lookup_empty, if_neg hc]
  · have hg : (serverDefaults cfg).ignoredMetadata.get? k =
        if k ∈ ["x-datadog-trace-id", "x-datadog-parent-id", "x-datadog-sampling-priority"]
        then some () else none := get?_fresh _ () k
    rw [hg]
    by_cases hk :
        k ∈ ["x-datadog-trace-id", "x-datadog-parent-id", "x-datadog-sampling-priority"]
    · simp only [hk, if_true, Option.isSome_some]
    · simp only [hk, if_false, Option.isSome_none, Bool.false_eq_true]

/-! ## The service-name segment -/

/-- C14: for every method string `startSpan` returns: element 0 of the split
exists, the resource name, the method-name tag and the full-method tag carry the
method string itself, and the `rpc.service` tag carries the segment.  For a
method `"/" + svc + "/" + rest` in which `svc` contains no `/`, that segment is
`svc`. -/
theorem startSpan_service_segment (extract : Headers → Option SpanContext) (ctx : Context)
    (headers : Headers) (operation : String) (serviceFn : Unit → String)
    (opts : List StartSpanOption) (method svc rest : String) (hsvc : '/' ∉ svc.data) :
    (∃ seg, startSpan extract ctx headers method operation serviceFn opts =
      some (StartSpanFromContext ctx operation
        (opts ++ [StartSpanOption.ServiceName (serviceFn ()),
            StartSpanOption.ResourceName method,
            StartSpanOption.Tag tagMethodName (Value.str method)]
          ++ [spanTypeRPC,
            StartSpanOption.Tag extRPCSystem (Value.str extRPCSystemConnect),
            StartSpanOption.Tag extGRPCFullMethod (Value.str method),
            StartSpanOption.Tag extRPCService (Value.str seg)]
          ++ (match extract headers with
              | some sctx => [StartSpanOption.ChildOf sctx]
              | none => [])))) ∧
    startSpan extract ctx headers ("/" ++ svc ++ "/" ++ rest) operation serviceFn opts =
      some (StartSpanFromContext ctx operation
        (opts ++ [StartSpanOption.ServiceName (serviceFn ()),
            StartSpanOption.ResourceName ("/" ++ svc ++ "/" ++ rest),
            StartSpanOption.Tag tagMethodName (Value.str ("/" ++ svc ++ "/" ++ rest))]
          ++ [spanTypeRPC,
            StartSpanOption.Tag extRPCSystem (Value.str extRPCSystemConnect),
            StartSpanOption.Tag extGRPCFullMethod (Value.str ("/" ++ svc ++ "/" ++ rest)),
            StartSpanOption.Tag extRPCService (Value.str svc)]
          ++ (match extract headers with
              | some sctx => [StartSpanOption.ChildOf sctx]
              | none => []))) := by
  constructor
  · obtain ⟨seg, hseg⟩ := head?_SplitN2_isSome (TrimPrefix method.data ['/']) '/'
    refine ⟨String.mk seg, ?_⟩
    unfold startSpan
    simp only [hseg]
    cases extract headers <;> simp
  · have hsplit : (SplitN2 (TrimPrefix ("/" ++ svc ++ "/" ++ rest).data ['/']) '/').head?
        = some svc.data := by
      rw [data_slash_method, TrimPrefix_slash, SplitN2_of_sep _ _ _ hsvc]
      rfl
    unfold startSpan
    simp only [hsplit]
    cases extract headers <;> simp

theorem startSpan_service_segment_witness :
    '/' ∉ "test.Service".data ∧
    (startSpan (fun _ => none) ⟨none⟩ [] "/test.Service/TestMethod" "test.operation"
        (fun _ => "test-service") []).map (fun r => r.1.startOpts) =
      some [StartSpanOption.ServiceName "test-service",
        StartSpanOption.ResourceName "/test.Service/TestMethod",
        StartSpanOption.Tag "connect.method.name" (Value.str "/test.Service/TestMethod"),
        StartSpanOption.SpanType "rpc",
        StartSpanOption.Tag "rpc.system" (Value.str "connect"),
        StartSpanOption.Tag "rpc.grpc.full_method" (Value.str "/test.Service/TestMethod"),
        StartSpanOption.Tag "rpc.service" (Value.str "test.Service")] ∧
    (startSpan (fun _ => none) ⟨none⟩ [] "" "test.operation"
        (fun _ => "test-service") []).map (fun r => r.1.startOpts.getLast?) =
      some (some (StartSpanOption.Tag "rpc.service" (Value.str ""))) := by
  have h := startSpan_service_segment (fun _ => none) ⟨none⟩ [] "test.operation"
    (fun _ => "test-service") [] "" "test.Service" "TestMethod" (by decide)
  refine ⟨by decide, ?_, by decide⟩
  have h2 := congrArg (Option.map (fun r => r.1.startOpts)) h.2
  exact h2.trans (by decide)

end DDConnect
